import Mathlib

/-!
Shallow embedding of the LBRY wallet-server session layer
(lbry/wallet/server/session.py): RPC parameter validation, the
transaction-height lookup, claim-record normalization, the batched
claims-by-ids path, worker-pool startup resolution, and the error
tolerance policy of sessions.
-/

set_option autoImplicit false

deriving instance DecidableEq for Except

/-- A JSON-like scalar value held in a daemon record: a string or an integer. -/
inductive JVal where
  | s (v : String)
  | i (v : Int)
deriving DecidableEq

/-- A daemon record, modelling a Python dict with unique keys as an
association list in insertion order. -/
abbrev Dict := List (String × JVal)

/-- Python dict.get k, returning none when the key is absent; with unique keys
this also models the membership test and the subscript access of the dict. -/
def pyGet (d : Dict) (k : String) : Option JVal :=
  match d with
  | [] => none
  | (k2, v) :: rest => if k2 = k then some v else pyGet rest k

/-- Python truthiness of a scalar value: the empty string and zero are falsy. -/
def jvalTruthy : JVal → Bool
  | .s v => v != ""
  | .i v => v != 0

/-- Python truthiness of the result of dict.get: None is falsy. -/
def optTruthy : Option JVal → Bool
  | none => false
  | some v => jvalTruthy v

/-- Value of one hexadecimal digit character, none for a non-hex character. -/
def hexDigitVal (c : Char) : Option Nat :=
  if 48 ≤ c.toNat ∧ c.toNat ≤ 57 then some (c.toNat - 48)
  else if 97 ≤ c.toNat ∧ c.toNat ≤ 102 then some (c.toNat - 87)
  else if 65 ≤ c.toNat ∧ c.toNat ≤ 70 then some (c.toNat - 55)
  else none

/-- Modelled from the spec: the helper hex_to_bytes that the validators call is
library code outside this excerpt; the spec describes it as plain hexadecimal
decoding, two hex digits per byte, so 64 hex characters for a 32-byte hash and
40 for a 20-byte claim id. -/
def hex_to_bytes : List Char → Option (List Nat)
  | [] => some []
  | c1 :: c2 :: rest =>
    match hexDigitVal c1, hexDigitVal c2 with
    | some hi, some lo =>
      match hex_to_bytes rest with
      | some bs => some ((16 * hi + lo) :: bs)
      | none => none
    | _, _ => none
  | _ :: [] => none

/-- The RPC error object raised by the validators: a numeric code and a
human-readable message. -/
structure RPCError where
  code : Int
  message : String
deriving DecidableEq

/-- str(value) as produced by the f-string in the validator error messages. -/
def pyStr : JVal → String
  | .s v => v
  | .i v => toString v

/-- assert_tx_hash: raise an RPCError of code 1 unless the value decodes as
hexadecimal to exactly 32 bytes; any decoding failure is caught and turned
into the same error. -/
def assert_tx_hash (value : String) : Except RPCError Unit :=
  match hex_to_bytes value.data with
  | some bs =>
    if bs.length = 32 then .ok ()
    else .error ⟨1, value ++ " should be a transaction hash"⟩
  | none => .error ⟨1, value ++ " should be a transaction hash"⟩

/-- assert_claim_id: raise an RPCError of code 1 unless the value decodes as
hexadecimal to exactly 20 bytes; a non-string value makes the decoding raise,
which is caught and turned into the same error. -/
def assert_claim_id (value : JVal) : Except RPCError Unit :=
  match value with
  | .s sv =>
    match hex_to_bytes sv.data with
    | some bs =>
      if bs.length = 20 then .ok ()
      else .error ⟨1, pyStr value ++ " should be a claim id hash"⟩
    | none => .error ⟨1, pyStr value ++ " should be a claim id hash"⟩
  | .i _ => .error ⟨1, pyStr value ++ " should be a claim id hash"⟩

/-- The daemon answer for getrawtransaction, when truthy (a non-empty dict):
whether the hex key is present, and the confirmations value when that key is
present. An absent or empty (falsy) answer is modelled as none at the call
site. -/
structure TxInfo where
  hasHex : Bool
  confirmations : Option Int
deriving DecidableEq

/-- blockchain.transaction.get_height: validate the hash, then ask the daemon
for the raw transaction and derive the height from the index height and the
confirmation count. The daemon is a function parameter; db_height is the
current index height. -/
def transaction_get_height (db_height : Int) (getrawtransaction : String → Option TxInfo)
    (tx_hash : String) : Except RPCError (Option Int) :=
  match assert_tx_hash tx_hash with
  | .error e => .error e
  | .ok _ =>
    match getrawtransaction tx_hash with
    | some ti =>
      if ti.hasHex then
        match ti.confirmations with
        | some c => .ok (some ((db_height - c) + 1))
        | none => .ok (some (-1))
      else .ok none
    | none => .ok none

/-- One character of the standard base64 alphabet. -/
def b64Char (n : Nat) : Char :=
  "ABCDEFGHIJKLMNOPQRSTUVWXYZabcdefghijklmnopqrstuvwxyz0123456789+/".data.getD n 'A'

/-- base64.b64encode over a byte list, producing the transport characters. -/
def b64encodeChars : List Nat → List Char
  | [] => []
  | [a] => [b64Char (a / 4), b64Char (a % 4 * 16), '=', '=']
  | [a, b] => [b64Char (a / 4), b64Char (a % 4 * 16 + b / 16), b64Char (b % 16 * 4), '=']
  | a :: b :: c :: rest =>
    b64Char (a / 4) :: b64Char (a % 4 * 16 + b / 16) :: b64Char (b % 16 * 4 + c / 64) ::
      b64Char (c % 64) :: b64encodeChars rest

/-- blockchain.claimtrie.search: when the criteria carry a claim_id, validate
it first; then delegate the query to the worker pool (the reader search
routine, passed in as a function) and base64-encode the returned bytes. -/
def claimtrie_search (search_to_bytes : Dict → List Nat) (kwargs : Dict) :
    Except RPCError String :=
  match pyGet kwargs "claim_id" with
  | some v =>
    match assert_claim_id v with
    | .error e => .error e
    | .ok _ => .ok (String.mk (b64encodeChars (search_to_bytes kwargs)))
  | none => .ok (String.mk (b64encodeChars (search_to_bytes kwargs)))

/-- Test whether a byte lies in a half-open range, for the UTF-8 decoder. -/
def inRange (lo b hi : Nat) : Bool := decide (lo ≤ b) && decide (b < hi)

/-- str.encode with the ISO-8859-1 codec: one byte per character, failing on
any character above U+00FF. -/
def encodeISO8859 : List Char → Option (List Nat)
  | [] => some []
  | c :: rest =>
    if c.toNat ≤ 255 then
      match encodeISO8859 rest with
      | some bs => some (c.toNat :: bs)
      | none => none
    else none

/-- bytes.decode with the default strict UTF-8 codec, written with a fuel
argument so that the recursion is structural; the fuel is the byte count, and
each step consumes at least one byte. Overlong forms, surrogates and
codepoints above U+10FFFF are rejected as in the strict codec. -/
def utf8DecodeFuel : Nat → List Nat → Option (List Char)
  | _, [] => some []
  | 0, _ :: _ => none
  | fuel + 1, b1 :: rest =>
    if b1 < 128 then
      match utf8DecodeFuel fuel rest with
      | some cs => some (Char.ofNat b1 :: cs)
      | none => none
    else if b1 < 194 then none
    else if b1 < 224 then
      match rest with
      | b2 :: rest2 =>
        if inRange 128 b2 192 then
          match utf8DecodeFuel fuel rest2 with
          | some cs => some (Char.ofNat ((b1 - 192) * 64 + (b2 - 128)) :: cs)
          | none => none
        else none
      | [] => none
    else if b1 < 240 then
      match rest with
      | b2 :: b3 :: rest3 =>
        if (if b1 = 224 then inRange 160 b2 192
            else if b1 = 237 then inRange 128 b2 160
            else inRange 128 b2 192) && inRange 128 b3 192 then
          match utf8DecodeFuel fuel rest3 with
          | some cs => some (Char.ofNat ((b1 - 224) * 4096 + (b2 - 128) * 64 + (b3 - 128)) :: cs)
          | none => none
        else none
      | _ => none
    else if b1 < 245 then
      match rest with
      | b2 :: b3 :: b4 :: rest4 =>
        if (if b1 = 240 then inRange 144 b2 192
            else if b1 = 244 then inRange 128 b2 144
            else inRange 128 b2 192) && inRange 128 b3 192 && inRange 128 b4 192 then
          match utf8DecodeFuel fuel rest4 with
          | some cs =>
            some (Char.ofNat
              ((b1 - 240) * 262144 + (b2 - 128) * 4096 + (b3 - 128) * 64 + (b4 - 128)) :: cs)
          | none => none
        else none
      | _ => none
    else none

/-- bytes.decode with the default strict UTF-8 codec. -/
def utf8Decode (bs : List Nat) : Option (List Char) := utf8DecodeFuel bs.length bs

/-- One lowercase hex digit character, for hexlify. -/
def hexDigitChar (n : Nat) : Char :=
  if n < 10 then Char.ofNat (48 + n) else Char.ofNat (87 + n)

/-- binascii.hexlify over a byte list, then decoded to a string: two lowercase
hex digits per byte. -/
def hexlifyChars : List Nat → List Char
  | [] => []
  | b :: rest => hexDigitChar (b / 16) :: hexDigitChar (b % 16) :: hexlifyChars rest

/-- binascii.hexlify followed by decode, as used for the claim value field. -/
def hexlify (bs : List Nat) : String := String.mk (hexlifyChars bs)

/-- The Python exceptions that normalization can raise. -/
inductive PyErr where
  | keyError (k : String)
  | typeError
  | attributeError
  | unicodeEncodeError
  | unicodeDecodeError
deriving DecidableEq

/-- The record returned by the local index for a claim id: the address as raw
bytes, decoded to text during normalization. -/
structure AddrInfo where
  address : List Nat
deriving DecidableEq

/-- The canonical claim record assembled by format_claim_from_daemon. -/
structure CanonicalClaim where
  name : Option String
  claim_id : JVal
  txid : JVal
  nout : JVal
  amount : Option JVal
  depth : Int
  height : Int
  value : String
  address : String
  supports : List JVal
  effective_amount : Option JVal
  valid_at_height : Option JVal
  claim_sequence : JVal
  normalized_name : Option String
deriving DecidableEq

/-- The result of format_claim_from_daemon when it does not raise: either the
empty dict or a canonical record. -/
inductive FormatResult where
  | empty
  | record (r : CanonicalClaim)
deriving DecidableEq

/-- The legacy round trip applied to the name fields: encode the string with
ISO-8859-1, then decode the bytes as UTF-8; a non-string value raises
AttributeError, and either codec step can raise. -/
def decodeLegacy (v : JVal) : Except PyErr String :=
  match v with
  | .i _ => .error .attributeError
  | .s sv =>
    match encodeISO8859 sv.data with
    | none => .error .unicodeEncodeError
    | some bs =>
      match utf8Decode bs with
      | none => .error .unicodeDecodeError
      | some cs => .ok (String.mk cs)

/-- Lines 105 and 106 of the source: when the raw claim carries a name key,
rebind the name argument to the legacy-decoded value, else keep the argument. -/
def nameStep (claim : Dict) (name : Option String) : Except PyErr (Option String) :=
  match pyGet claim "name" with
  | some v =>
    match decodeLegacy v with
    | .error e => .error e
    | .ok s => .ok (some s)
  | none => .ok name

/-- get_from_possible_keys: return the value of the first of the given keys
present in the dictionary, None when none of them is. -/
def get_from_possible_keys (dictionary : Dict) (keys : List String) : Option JVal :=
  match keys with
  | [] => none
  | k :: rest =>
    match pyGet dictionary k with
    | some v => some v
    | none => get_from_possible_keys dictionary rest

/-- Lines 140 and 141 of the source: the normalized_name entry is added to the
result only when the raw claim carries it, legacy-decoded. -/
def normalizedNameStep (claim : Dict) : Except PyErr (Option String) :=
  match pyGet claim "normalized_name" with
  | some nn =>
    match decodeLegacy nn with
    | .error e => .error e
    | .ok s => .ok (some s)
  | none => .ok none

/-- format_claim_from_daemon: normalize one raw daemon claim against the local
index. An empty claim gives the empty dict; a claim id with no index record
gives the empty dict; otherwise the canonical record is assembled, evaluating
the field expressions in the textual order of the source so that the same
exception surfaces. -/
def format_claim_from_daemon (db_height : Int) (get_claims : JVal → Option AddrInfo)
    (claim : Dict) (name : Option String) : Except PyErr FormatResult :=
  if claim = [] then .ok .empty
  else
    match nameStep claim name with
    | .error e => .error e
    | .ok name1 =>
      match pyGet claim "claimId" with
      | none => .error (.keyError "claimId")
      | some claimId =>
        match get_claims claimId with
        | none => .ok .empty
        | some info =>
          match utf8Decode info.address with
          | none => .error .unicodeDecodeError
          | some addrChars =>
            match pyGet claim "txid" with
            | none => .error (.keyError "txid")
            | some txid =>
              match pyGet claim "n" with
              | none => .error (.keyError "n")
              | some nout =>
                match get_from_possible_keys claim ["height", "nHeight"] with
                | some (.i height) =>
                  match pyGet claim "value" with
                  | none => .error (.keyError "value")
                  | some (.i _) => .error .attributeError
                  | some (.s sv) =>
                    match encodeISO8859 sv.data with
                    | none => .error .unicodeEncodeError
                    | some vbytes =>
                      match normalizedNameStep claim with
                      | .error e => .error e
                      | .ok normalized =>
                        .ok (.record
                          ⟨name1, claimId, txid, nout,
                           get_from_possible_keys claim ["amount", "nAmount"],
                           (db_height - height) + 1, height,
                           hexlify vbytes, String.mk addrChars, [],
                           get_from_possible_keys claim ["effective amount", "nEffectiveAmount"],
                           get_from_possible_keys claim ["valid at height", "nValidAtHeight"],
                           (match pyGet claim "claim_sequence" with
                            | some cs => cs
                            | none => JVal.i (-1)),
                           normalized⟩)
                | _ => .error .typeError

/-- The guard of the loop in batched_formatted_claims_from_daemon: the claim
is truthy (a non-empty dict) and its value entry is truthy. -/
def survives (claim : Dict) : Bool :=
  !claim.isEmpty && optTruthy (pyGet claim "value")

/-- batched_formatted_claims_from_daemon over the list the daemon returned:
keep the claims passing the guard, normalizing each in order; an exception
from normalization aborts the whole batch. -/
def batched_formatted_claims_from_daemon (db_height : Int)
    (get_claims : JVal → Option AddrInfo) (claims : List Dict) :
    Except PyErr (List FormatResult) :=
  match claims with
  | [] => .ok []
  | claim :: rest =>
    if survives claim then
      match format_claim_from_daemon db_height get_claims claim none with
      | .error e => .error e
      | .ok r =>
        match batched_formatted_claims_from_daemon db_height get_claims rest with
        | .error e => .error e
        | .ok rs => .ok (r :: rs)
    else batched_formatted_claims_from_daemon db_height get_claims rest

/-- blockchain.claimtrie.getclaimsbyids: fetch the raw claims from the daemon
(a function parameter), run the batched normalization, and zip the original
id list against the surviving records; dict of the zip is modelled as the
association list of the pairs. -/
def claimtrie_getclaimsbyids (db_height : Int) (get_claims : JVal → Option AddrInfo)
    (daemon_getclaimsbyids : List String → List Dict) (claim_ids : List String) :
    Except PyErr (List (String × FormatResult)) :=
  match batched_formatted_claims_from_daemon db_height get_claims
      (daemon_getclaimsbyids claim_ids) with
  | .error e => .error e
  | .ok claims => .ok (claim_ids.zip claims)

/-- The query executor chosen by LBRYSessionManager.start_other: a thread pool
or a process pool, with its worker bound and the initializer arguments each
worker is initialized with once at startup. -/
inductive QueryExecutor where
  | thread (max_workers : Nat) (initargs : String × String)
  | process (max_workers : Nat) (initargs : String × String)
deriving DecidableEq

/-- Python or over an optional count: None and zero are falsy and select the
fallback. -/
def pyOrNat (v : Option Nat) (fallback : Nat) : Nat :=
  match v with
  | none => fallback
  | some n => if n = 0 then fallback else n

/-- LBRYSessionManager.start_other: an explicit zero worker count selects one
in-process thread worker; otherwise a process pool sized by the configured
count, or by max(cpu count, 4) when the count is falsy. -/
def start_other (max_query_workers : Option Nat) (cpu_count : Nat) (net : String) :
    QueryExecutor :=
  if max_query_workers ≠ none ∧ max_query_workers = some 0 then
    .thread 1 ("claims.db", net)
  else
    .process (pyOrNat max_query_workers (max cpu_count 4)) ("claims.db", net)

/-- LBRYElectrumX.max_errors, the per-session error budget: math.inf, modelled
as the top element of the naturals with infinity. -/
def LBRYElectrumX_max_errors : WithTop Nat := ⊤

/-- Modelled from the spec: the base session layer outside this excerpt keeps
a per-session error counter and forcibly disconnects a session once the
counter reaches the max_errors bound of the session class. -/
def session_disconnects (max_errors : WithTop Nat) (errors : Nat) : Bool :=
  decide (max_errors ≤ (errors : WithTop Nat))

/-- The per-session state the error policy acts on: the error counter and
whether the session is still connected. -/
structure SessionState where
  errors : Nat
  connected : Bool
deriving DecidableEq

/-- Modelled from the spec: one application-level erroring request on a live
session increments the error counter and disconnects the session exactly when
the counter reaches max_errors; a dead session stays dead. -/
def session_step (s : SessionState) : SessionState :=
  if s.connected then
    ⟨s.errors + 1, !session_disconnects LBRYElectrumX_max_errors (s.errors + 1)⟩
  else s

/-- A fresh session after a sequence of n erroring requests. -/
def session_run (n : Nat) : SessionState :=
  session_step^[n] ⟨0, true⟩

/-!
Helper predicates and lemmas used by the claim theorems.
-/

/-- The predicate assert_tx_hash checks: the value decodes as hexadecimal to
exactly 32 bytes. -/
def txHashValid (value : String) : Bool :=
  match hex_to_bytes value.data with
  | some bs => bs.length == 32
  | none => false

/-- The predicate assert_claim_id checks: the value is a string that decodes
as hexadecimal to exactly 20 bytes. -/
def claimIdValid (value : JVal) : Bool :=
  match value with
  | .s sv =>
    match hex_to_bytes sv.data with
    | some bs => bs.length == 20
    | none => false
  | .i _ => false

theorem hex_to_bytes_length (l : List Char) (bs : List Nat)
    (h : hex_to_bytes l = some bs) : l.length = 2 * bs.length := by
  induction l using hex_to_bytes.induct generalizing bs with
  | case1 =>
    simp [hex_to_bytes] at h
    subst h
    rfl
  | case2 c1 c2 rest hi lo h1 h2 rest2 h3 ih =>
    rw [hex_to_bytes, h1, h2, h3] at h
    simp at h
    subst h
    have := ih rest2 h3
    simp [this]
    omega
  | case3 c1 c2 rest hi lo h1 h2 h3 =>
    rw [hex_to_bytes, h1, h2, h3] at h
    simp at h
  | case4 c1 c2 rest h1 =>
    rw [hex_to_bytes] at h
    split at h
    · simp_all
    · simp at h
  | case5 c =>
    simp [hex_to_bytes] at h

/-!
Claim theorems.
-/

/-- C2: for every tx hash accepted by validation, transaction_get_height
returns exactly one of three results determined by the daemon response: hex
and confirmations present gives (index height - confirmations) + 1, hex
without confirmations gives -1, and an empty or absent response gives null. -/
theorem claim_C2_transaction_get_height_cases
    (db_height : Int) (daemon : String → Option TxInfo) (tx_hash : String)
    (hvalid : assert_tx_hash tx_hash = .ok ()) :
    (∀ ti c, daemon tx_hash = some ti → ti.hasHex = true → ti.confirmations = some c →
      transaction_get_height db_height daemon tx_hash = .ok (some ((db_height - c) + 1)))
    ∧ (∀ ti, daemon tx_hash = some ti → ti.hasHex = true → ti.confirmations = none →
      transaction_get_height db_height daemon tx_hash = .ok (some (-1)))
    ∧ (daemon tx_hash = none →
      transaction_get_height db_height daemon tx_hash = .ok none) := by
  refine ⟨?_, ?_, ?_⟩
  · intro ti c hd hx hc
    simp [transaction_get_height, hvalid, hd, hx, hc]
  · intro ti hd hx hc
    simp [transaction_get_height, hvalid, hd, hx, hc]
  · intro hd
    simp [transaction_get_height, hvalid, hd]

theorem claim_C2_transaction_get_height_cases_witness :
    assert_tx_hash (String.mk (List.replicate 64 '0')) = .ok ()
    ∧ transaction_get_height 100 (fun _ => some ⟨true, some 3⟩)
        (String.mk (List.replicate 64 '0')) = .ok (some 98) := by
  have hv : assert_tx_hash (String.mk (List.replicate 64 '0')) = .ok () := by decide
  refine ⟨hv, ?_⟩
  have h := (claim_C2_transaction_get_height_cases 100 (fun _ => some ⟨true, some 3⟩)
    (String.mk (List.replicate 64 '0')) hv).1 ⟨true, some 3⟩ 3 rfl rfl rfl
  simpa using h

/-- C3: a string that does not decode as hexadecimal to exactly 32 bytes
(equivalently, that is not 64 hex characters) makes transaction_get_height
fail with an RPC error of code 1 and a descriptive message without the daemon
result influencing the outcome, while every string that does decode to 32
bytes passes validation. -/
theorem claim_C3_tx_hash_validation (value : String) :
    (txHashValid value = false →
      assert_tx_hash value = .error ⟨1, value ++ " should be a transaction hash"⟩
      ∧ ∀ (db_height : Int) (d1 d2 : String → Option TxInfo),
        transaction_get_height db_height d1 value = transaction_get_height db_height d2 value
        ∧ transaction_get_height db_height d1 value
            = .error ⟨1, value ++ " should be a transaction hash"⟩)
    ∧ (txHashValid value = true →
      assert_tx_hash value = .ok () ∧ value.data.length = 64) := by
  constructor
  · intro hf
    have herr : assert_tx_hash value = .error ⟨1, value ++ " should be a transaction hash"⟩ := by
      unfold assert_tx_hash
      unfold txHashValid at hf
      cases hh : hex_to_bytes value.data with
      | none => simp
      | some bs =>
        rw [hh] at hf
        simp at hf
        simp [hf]
    refine ⟨herr, ?_⟩
    intro db_height d1 d2
    constructor
    · simp [transaction_get_height, herr]
    · simp [transaction_get_height, herr]
  · intro ht
    unfold txHashValid at ht
    cases hh : hex_to_bytes value.data with
    | none => rw [hh] at ht; simp at ht
    | some bs =>
      rw [hh] at ht
      simp at ht
      constructor
      · simp [assert_tx_hash, hh, ht]
      · rw [hex_to_bytes_length value.data bs hh, ht]

theorem claim_C3_tx_hash_validation_witness :
    assert_tx_hash "00" = .error ⟨1, "00 should be a transaction hash"⟩
    ∧ transaction_get_height 5 (fun _ => some ⟨true, some 1⟩) "00"
        = transaction_get_height 5 (fun _ => none) "00"
    ∧ assert_tx_hash (String.mk (List.replicate 64 'a')) = .ok () := by
  have h := claim_C3_tx_hash_validation "00"
  have h64 := claim_C3_tx_hash_validation (String.mk (List.replicate 64 'a'))
  exact ⟨(h.1 (by decide)).1,
         ((h.1 (by decide)).2 5 (fun _ => some ⟨true, some 1⟩) (fun _ => none)).1,
         (h64.2 (by decide)).1⟩

/-- C4: a search whose criteria carry a claim_id that does not decode as
hexadecimal to exactly 20 bytes fails with the invalid-parameter RPC error
without the worker-pool routine influencing the outcome; criteria without a
claim_id key undergo no validation, and a valid claim_id is delegated. -/
theorem claim_C4_search_claim_id_validation (kwargs : Dict) :
    (pyGet kwargs "claim_id" = none →
      ∀ stb : Dict → List Nat,
        claimtrie_search stb kwargs = .ok (String.mk (b64encodeChars (stb kwargs))))
    ∧ (∀ v, pyGet kwargs "claim_id" = some v → claimIdValid v = false →
      (∀ stb1 stb2 : Dict → List Nat,
        claimtrie_search stb1 kwargs = claimtrie_search stb2 kwargs)
      ∧ ∀ stb : Dict → List Nat,
        claimtrie_search stb kwargs = .error ⟨1, pyStr v ++ " should be a claim id hash"⟩)
    ∧ (∀ v, pyGet kwargs "claim_id" = some v → claimIdValid v = true →
      ∀ stb : Dict → List Nat,
        claimtrie_search stb kwargs = .ok (String.mk (b64encodeChars (stb kwargs)))) := by
  refine ⟨?_, ?_, ?_⟩
  · intro hn stb
    simp [claimtrie_search, hn]
  · intro v hv hinvalid
    have herr : assert_claim_id v = .error ⟨1, pyStr v ++ " should be a claim id hash"⟩ := by
      cases v with
      | i n => simp [assert_claim_id]
      | s sv =>
        unfold claimIdValid at hinvalid
        simp only [] at hinvalid
        cases hh : hex_to_bytes sv.data with
        | none => simp [assert_claim_id, hh]
        | some bs =>
          rw [hh] at hinvalid
          simp at hinvalid
          simp [assert_claim_id, hh, hinvalid]
    constructor
    · intro stb1 stb2
      simp [claimtrie_search, hv, herr]
    · intro stb
      simp [claimtrie_search, hv, herr]
  · intro v hv hok stb
    have hpass : assert_claim_id v = .ok () := by
      cases v with
      | i n => simp [claimIdValid] at hok
      | s sv =>
        unfold claimIdValid at hok
        simp only [] at hok
        cases hh : hex_to_bytes sv.data with
        | none => rw [hh] at hok; simp at hok
        | some bs =>
          rw [hh] at hok
          simp at hok
          simp [assert_claim_id, hh, hok]
    simp [claimtrie_search, hv, hpass]

theorem claim_C4_search_claim_id_validation_witness :
    claimtrie_search (fun _ => [1, 2, 3]) [("claim_id", JVal.s "xyz")]
        = claimtrie_search (fun _ => [9, 9]) [("claim_id", JVal.s "xyz")]
    ∧ claimtrie_search (fun _ => [1, 2, 3]) [("claim_id", JVal.s "xyz")]
        = .error ⟨1, "xyz should be a claim id hash"⟩
    ∧ claimtrie_search (fun _ => [77, 97, 110]) [("height", JVal.i 3)] = .ok "TWFu" := by
  have h := claim_C4_search_claim_id_validation [("claim_id", JVal.s "xyz")]
  have hv := (h.2.1 (JVal.s "xyz") (by decide) (by decide))
  have hnone := claim_C4_search_claim_id_validation [("height", JVal.i 3)]
  exact ⟨hv.1 (fun _ => [1, 2, 3]) (fun _ => [9, 9]),
         hv.2 (fun _ => [1, 2, 3]),
         by simpa using hnone.1 (by decide) (fun _ => [77, 97, 110])⟩

/-- C8: worker-pool startup resolves the configuration in three cases: an
explicit zero gives one in-process thread worker, a positive count N gives a
process pool of N workers, and an absent count gives a process pool of
max(cpu count, 4) workers, each constructed with the index initializer
arguments. -/
theorem claim_C8_worker_count_resolution (cpu_count : Nat) (net : String) :
    start_other (some 0) cpu_count net = .thread 1 ("claims.db", net)
    ∧ (∀ n : Nat, 0 < n →
        start_other (some n) cpu_count net = .process n ("claims.db", net))
    ∧ start_other none cpu_count net = .process (max cpu_count 4) ("claims.db", net) := by
  refine ⟨?_, ?_, ?_⟩
  · simp [start_other]
  · intro n hn
    have hne : n ≠ 0 := Nat.pos_iff_ne_zero.mp hn
    simp [start_other, pyOrNat, hne]
  · simp [start_other, pyOrNat]

theorem claim_C8_worker_count_resolution_witness :
    start_other (some 0) 8 "mainnet" = .thread 1 ("claims.db", "mainnet")
    ∧ start_other (some 3) 8 "mainnet" = .process 3 ("claims.db", "mainnet")
    ∧ start_other none 2 "mainnet" = .process 4 ("claims.db", "mainnet") := by
  refine ⟨(claim_C8_worker_count_resolution 8 "mainnet").1,
          (claim_C8_worker_count_resolution 8 "mainnet").2.1 3 (by decide),
          ?_⟩
  have h := (claim_C8_worker_count_resolution 2 "mainnet").2.2
  simpa using h

/-- C9: the per-session error tolerance is infinite, so the disconnection
predicate never fires and a session stays connected through any sequence of
erroring requests, its unbounded error counter notwithstanding. -/
theorem claim_C9_infinite_error_tolerance :
    (∀ errors : Nat, session_disconnects LBRYElectrumX_max_errors errors = false)
    ∧ ∀ n : Nat, (session_run n).connected = true ∧ (session_run n).errors = n := by
  have hnever : ∀ errors : Nat,
      session_disconnects LBRYElectrumX_max_errors errors = false := by
    intro errors
    simp [session_disconnects, LBRYElectrumX_max_errors, top_le_iff]
  refine ⟨hnever, ?_⟩
  intro n
  induction n with
  | zero => exact ⟨rfl, rfl⟩
  | succ k ih =>
    have hs : session_run (k + 1) = session_step (session_run k) :=
      Function.iterate_succ_apply' session_step k ⟨0, true⟩
    rcases ih with ⟨hc, he⟩
    rw [hs]
    simp [session_step, hc, he, hnever (k + 1)]

/-- C5: normalization extracts each of the four aliased fields by trying the
current key first and the legacy alias second, first present key winning; a
record holding both amount and nAmount yields the amount value, and a
successfully formatted record carries exactly those extracted values. -/
theorem claim_C5_field_alias_precedence (claim : Dict) :
    ((∀ v, pyGet claim "amount" = some v →
        get_from_possible_keys claim ["amount", "nAmount"] = some v)
      ∧ (pyGet claim "amount" = none →
        get_from_possible_keys claim ["amount", "nAmount"] = pyGet claim "nAmount"))
    ∧ ((∀ v, pyGet claim "height" = some v →
        get_from_possible_keys claim ["height", "nHeight"] = some v)
      ∧ (pyGet claim "height" = none →
        get_from_possible_keys claim ["height", "nHeight"] = pyGet claim "nHeight"))
    ∧ ((∀ v, pyGet claim "effective amount" = some v →
        get_from_possible_keys claim ["effective amount", "nEffectiveAmount"] = some v)
      ∧ (pyGet claim "effective amount" = none →
        get_from_possible_keys claim ["effective amount", "nEffectiveAmount"]
          = pyGet claim "nEffectiveAmount"))
    ∧ ((∀ v, pyGet claim "valid at height" = some v →
        get_from_possible_keys claim ["valid at height", "nValidAtHeight"] = some v)
      ∧ (pyGet claim "valid at height" = none →
        get_from_possible_keys claim ["valid at height", "nValidAtHeight"]
          = pyGet claim "nValidAtHeight"))
    ∧ (∀ (db_height : Int) (gc : JVal → Option AddrInfo) (nm : Option String)
        (r : CanonicalClaim),
        format_claim_from_daemon db_height gc claim nm = .ok (.record r) →
        r.amount = get_from_possible_keys claim ["amount", "nAmount"]
        ∧ get_from_possible_keys claim ["height", "nHeight"] = some (.i r.height)
        ∧ r.effective_amount
            = get_from_possible_keys claim ["effective amount", "nEffectiveAmount"]
        ∧ r.valid_at_height
            = get_from_possible_keys claim ["valid at height", "nValidAtHeight"]) := by
  have hpair : ∀ k1 k2 : String,
      (∀ v, pyGet claim k1 = some v →
        get_from_possible_keys claim [k1, k2] = some v)
      ∧ (pyGet claim k1 = none →
        get_from_possible_keys claim [k1, k2] = pyGet claim k2) := by
    intro k1 k2
    constructor
    · intro v hv
      simp [get_from_possible_keys, hv]
    · intro hn
      cases h2 : pyGet claim k2 with
      | none => simp [get_from_possible_keys, hn, h2]
      | some w => simp [get_from_possible_keys, hn, h2]
  refine ⟨hpair "amount" "nAmount", hpair "height" "nHeight",
          hpair "effective amount" "nEffectiveAmount",
          hpair "valid at height" "nValidAtHeight", ?_⟩
  intro db_height gc nm r h
  unfold format_claim_from_daemon at h
  repeat' split at h
  all_goals try simp at h
  all_goals subst h
  all_goals exact ⟨rfl, by assumption, rfl, rfl⟩

theorem claim_C5_field_alias_precedence_witness :
    get_from_possible_keys [("amount", JVal.i 7), ("nAmount", JVal.i 9)]
        ["amount", "nAmount"] = some (JVal.i 7)
    ∧ (format_claim_from_daemon 10 (fun _ => some ⟨[97]⟩)
        [("claimId", JVal.s "aa"), ("txid", JVal.s "t1"), ("n", JVal.i 0),
         ("amount", JVal.i 7), ("nAmount", JVal.i 9), ("height", JVal.i 5),
         ("value", JVal.s "v")] none
        = .ok (.record ⟨none, JVal.s "aa", JVal.s "t1", JVal.i 0, some (JVal.i 7), 6, 5,
            "76", "a", [], none, none, JVal.i (-1), none⟩)
      ∧ some (JVal.i 7) = get_from_possible_keys
          [("claimId", JVal.s "aa"), ("txid", JVal.s "t1"), ("n", JVal.i 0),
           ("amount", JVal.i 7), ("nAmount", JVal.i 9), ("height", JVal.i 5),
           ("value", JVal.s "v")] ["amount", "nAmount"]) := by
  have hfmt : format_claim_from_daemon 10 (fun _ => some ⟨[97]⟩)
      [("claimId", JVal.s "aa"), ("txid", JVal.s "t1"), ("n", JVal.i 0),
       ("amount", JVal.i 7), ("nAmount", JVal.i 9), ("height", JVal.i 5),
       ("value", JVal.s "v")] none
      = .ok (.record ⟨none, JVal.s "aa", JVal.s "t1", JVal.i 0, some (JVal.i 7), 6, 5,
          "76", "a", [], none, none, JVal.i (-1), none⟩) := by decide
  have hlink := ((claim_C5_field_alias_precedence
      [("claimId", JVal.s "aa"), ("txid", JVal.s "t1"), ("n", JVal.i 0),
       ("amount", JVal.i 7), ("nAmount", JVal.i 9), ("height", JVal.i 5),
       ("value", JVal.s "v")]).2.2.2.2 10 (fun _ => some ⟨[97]⟩) none _ hfmt).1
  exact ⟨(claim_C5_field_alias_precedence
      [("amount", JVal.i 7), ("nAmount", JVal.i 9)]).1.1 (JVal.i 7) (by decide),
    hfmt, hlink⟩

/-- C6 counterexample: a non-empty raw claim whose claim id has no address
record in the local index but whose name field does not survive the legacy
decode round trip makes normalization raise a decoding error instead of
returning the empty record, refuting the claim as stated. -/
theorem claim_C6_counterexample :
    ([("name", JVal.s "é"), ("claimId", JVal.s "aa")] : Dict) ≠ []
    ∧ (fun _ : JVal => (none : Option AddrInfo)) (JVal.s "aa") = none
    ∧ format_claim_from_daemon 10 (fun _ => none)
        [("name", JVal.s "é"), ("claimId", JVal.s "aa")] none
        = .error .unicodeDecodeError := by
  exact ⟨by decide, rfl, by decide⟩

/-- C6 (amended): for every non-empty raw claim whose claim id has no address
record in the local index, provided the legacy decoding of the name field
(when present) does not raise, normalization returns the empty record, never
a partial record and not an error. -/
theorem claim_C6_index_miss_empty_record (db_height : Int) (gc : JVal → Option AddrInfo)
    (claim : Dict) (nm : Option String) (cid : JVal)
    (hne : claim ≠ [])
    (hname : ∃ s, nameStep claim nm = .ok s)
    (hcid : pyGet claim "claimId" = some cid)
    (hmiss : gc cid = none) :
    format_claim_from_daemon db_height gc claim nm = .ok .empty := by
  obtain ⟨s, hs⟩ := hname
  unfold format_claim_from_daemon
  rw [if_neg hne]
  simp [hs, hcid, hmiss]

theorem claim_C6_index_miss_empty_record_witness :
    format_claim_from_daemon 10 (fun _ => none)
        [("claimId", JVal.s "aa"), ("value", JVal.s "v"), ("height", JVal.i 3)] none
        = .ok .empty := by
  exact claim_C6_index_miss_empty_record 10 (fun _ => none)
    [("claimId", JVal.s "aa"), ("value", JVal.s "v"), ("height", JVal.i 3)] none
    (JVal.s "aa") (by decide) ⟨none, by decide⟩ (by decide) rfl

/-- C10: for a non-empty raw claim found in the local index, completing
normalization with a canonical record requires one of the height or nHeight
keys: with both absent the height lookup yields none and the depth
computation cannot be performed, so no canonical record is produced. -/
theorem claim_C10_height_precondition (db_height : Int) (gc : JVal → Option AddrInfo)
    (claim : Dict) (nm : Option String) (cid : JVal) (info : AddrInfo)
    (hne : claim ≠ [])
    (hcid : pyGet claim "claimId" = some cid)
    (hfound : gc cid = some info)
    (hh : pyGet claim "height" = none)
    (hnh : pyGet claim "nHeight" = none) :
    ∀ r : CanonicalClaim,
      format_claim_from_daemon db_height gc claim nm ≠ .ok (.record r) := by
  intro r h
  have hgf : get_from_possible_keys claim ["height", "nHeight"] = none := by
    simp [get_from_possible_keys, hh, hnh]
  unfold format_claim_from_daemon at h
  rw [if_neg hne] at h
  simp only [hcid, hfound, hgf] at h
  repeat' split at h
  all_goals simp at h

theorem claim_C10_height_precondition_witness :
    format_claim_from_daemon 10 (fun _ => some ⟨[97]⟩)
        [("claimId", JVal.s "aa"), ("txid", JVal.s "t"), ("n", JVal.i 0),
         ("value", JVal.s "v")] none
      ≠ .ok (.record ⟨none, JVal.i 0, JVal.i 0, JVal.i 0, none, 0, 0, "", "", [],
          none, none, JVal.i 0, none⟩) := by
  exact claim_C10_height_precondition 10 (fun _ => some ⟨[97]⟩)
    [("claimId", JVal.s "aa"), ("txid", JVal.s "t"), ("n", JVal.i 0),
     ("value", JVal.s "v")] none (JVal.s "aa") ⟨[97]⟩
    (by decide) (by decide) rfl (by decide) (by decide)
    ⟨none, JVal.i 0, JVal.i 0, JVal.i 0, none, 0, 0, "", "", [], none, none, JVal.i 0, none⟩

theorem batched_drop (db_height : Int) (gc : JVal → Option AddrInfo)
    (d : Dict) (hd : survives d = false) :
    ∀ pre post : List Dict,
      batched_formatted_claims_from_daemon db_height gc (pre ++ d :: post)
        = batched_formatted_claims_from_daemon db_height gc (pre ++ post) := by
  intro pre
  induction pre with
  | nil =>
    intro post
    simp [batched_formatted_claims_from_daemon, hd]
  | cons p pre2 ih =>
    intro post
    simp only [List.cons_append]
    unfold batched_formatted_claims_from_daemon
    by_cases hs : survives p = true
    · simp only [if_pos hs]
      cases hf : format_claim_from_daemon db_height gc p none with
      | error e => simp [hf]
      | ok r =>
        simp only [hf]
        rw [ih post]
    · simp only [if_neg hs]
      exact ih post

theorem batched_ok_length_le (db_height : Int) (gc : JVal → Option AddrInfo) :
    ∀ (claims : List Dict) (fs : List FormatResult),
      batched_formatted_claims_from_daemon db_height gc claims = .ok fs →
      fs.length ≤ claims.length := by
  intro claims
  induction claims with
  | nil =>
    intro fs h
    simp [batched_formatted_claims_from_daemon] at h
    subst h
    simp
  | cons c rest ih =>
    intro fs h
    unfold batched_formatted_claims_from_daemon at h
    by_cases hs : survives c = true
    · rw [if_pos hs] at h
      cases hf : format_claim_from_daemon db_height gc c none with
      | error e => rw [hf] at h; simp at h
      | ok r =>
        rw [hf] at h
        cases hb : batched_formatted_claims_from_daemon db_height gc rest with
        | error e => rw [hb] at h; simp at h
        | ok rs =>
          rw [hb] at h
          simp at h
          subst h
          have := ih rs hb
          simp
          omega
    · rw [if_neg hs] at h
      have := ih fs h
      simp
      omega

theorem batched_all_ok (db_height : Int) (gc : JVal → Option AddrInfo) :
    ∀ (claims : List Dict) (fs : List FormatResult),
      (∀ c ∈ claims, survives c = true) →
      batched_formatted_claims_from_daemon db_height gc claims = .ok fs →
      fs.length = claims.length
      ∧ ∀ (i : Nat) (hc : i < claims.length) (hf : i < fs.length),
          format_claim_from_daemon db_height gc (claims.get ⟨i, hc⟩) none
            = .ok (fs.get ⟨i, hf⟩) := by
  intro claims
  induction claims with
  | nil =>
    intro fs hall h
    simp [batched_formatted_claims_from_daemon] at h
    subst h
    refine ⟨rfl, ?_⟩
    intro i hc
    simp at hc
  | cons c rest ih =>
    intro fs hall h
    have hc : survives c = true := hall c (by simp)
    unfold batched_formatted_claims_from_daemon at h
    rw [if_pos hc] at h
    cases hf : format_claim_from_daemon db_height gc c none with
    | error e => rw [hf] at h; simp at h
    | ok r =>
      rw [hf] at h
      cases hb : batched_formatted_claims_from_daemon db_height gc rest with
      | error e => rw [hb] at h; simp at h
      | ok rs =>
        rw [hb] at h
        simp at h
        subst h
        obtain ⟨hlen, hidx⟩ := ih rs (fun x hx => hall x (by simp [hx])) hb
        refine ⟨by simp [hlen], ?_⟩
        intro i hc2 hf2
        cases i with
        | zero => simpa using hf
        | succ i2 =>
          simp only [List.get_cons_succ]
          exact hidx i2 (by simpa using hc2) (by simpa using hf2)

theorem zip_eq_zip_take {α β : Type} (l1 : List α) (l2 : List β) :
    l1.zip l2 = (l1.take l2.length).zip l2 := by
  induction l1 generalizing l2 with
  | nil => simp
  | cons a l1 ih =>
    cases l2 with
    | nil => simp
    | cons b l2 => simp [List.zip_cons_cons, ih l2]

theorem nodup_get_not_mem_take {α : Type} :
    ∀ (l : List α), l.Nodup → ∀ (m j : Nat) (hj : j < l.length), m ≤ j →
      l.get ⟨j, hj⟩ ∉ l.take m := by
  intro l
  induction l with
  | nil =>
    intro _ m j hj
    simp at hj
  | cons a tl ih =>
    intro hnd m j hj hmj
    cases m with
    | zero => simp
    | succ m2 =>
      cases j with
      | zero => omega
      | succ j2 =>
        simp only [List.take_succ_cons, List.get_cons_succ]
        intro hmem
        rcases List.mem_cons.mp hmem with heq | hmem2
        · have ha : a ∈ tl := by
            rw [← heq]
            exact List.get_mem tl j2 (by simpa using hj)
          exact (List.nodup_cons.mp hnd).1 ha
        · exact ih (List.nodup_cons.mp hnd).2 m2 j2 (by simpa using hj) (by omega) hmem2

/-- C7: the batch-fetch path drops every daemon claim that is empty or lacks
a value entry before normalization is attempted on it: such a claim fails the
loop guard and the batch result is the same as if the claim were not in the
daemon list at all; conversely every claim that passes the guard is non-empty
and carries a truthy value entry. -/
theorem claim_C7_value_filter (db_height : Int) (gc : JVal → Option AddrInfo) :
    (∀ (claims pre post : List Dict) (c : Dict),
      claims = pre ++ c :: post →
      (c = [] ∨ pyGet c "value" = none) →
      survives c = false
      ∧ batched_formatted_claims_from_daemon db_height gc claims
          = batched_formatted_claims_from_daemon db_height gc (pre ++ post))
    ∧ ∀ c : Dict, survives c = true →
        c ≠ [] ∧ ∃ v, pyGet c "value" = some v ∧ jvalTruthy v = true := by
  constructor
  · intro claims pre post c hsplit hdropped
    have hs : survives c = false := by
      rcases hdropped with hempty | hnoval
      · subst hempty
        simp [survives]
      · simp [survives, hnoval, optTruthy]
    subst hsplit
    exact ⟨hs, batched_drop db_height gc c hs pre post⟩
  · intro c hs
    unfold survives at hs
    simp at hs
    obtain ⟨hne, htruthy⟩ := hs
    refine ⟨by simpa using hne, ?_⟩
    cases hv : pyGet c "value" with
    | none => rw [hv] at htruthy; simp [optTruthy] at htruthy
    | some v =>
      rw [hv] at htruthy
      exact ⟨v, rfl, htruthy⟩

theorem claim_C7_value_filter_witness :
    survives [("claimId", JVal.s "bb")] = false
    ∧ batched_formatted_claims_from_daemon 10 (fun _ => some ⟨[97]⟩)
        [[("claimId", JVal.s "aa"), ("txid", JVal.s "t1"), ("n", JVal.i 0),
          ("height", JVal.i 5), ("value", JVal.s "v")],
         [("claimId", JVal.s "bb")]]
      = batched_formatted_claims_from_daemon 10 (fun _ => some ⟨[97]⟩)
        [[("claimId", JVal.s "aa"), ("txid", JVal.s "t1"), ("n", JVal.i 0),
          ("height", JVal.i 5), ("value", JVal.s "v")]] := by
  have h := (claim_C7_value_filter 10 (fun _ => some ⟨[97]⟩)).1
    [[("claimId", JVal.s "aa"), ("txid", JVal.s "t1"), ("n", JVal.i 0),
      ("height", JVal.i 5), ("value", JVal.s "v")],
     [("claimId", JVal.s "bb")]]
    [[("claimId", JVal.s "aa"), ("txid", JVal.s "t1"), ("n", JVal.i 0),
      ("height", JVal.i 5), ("value", JVal.s "v")]]
    [] [("claimId", JVal.s "bb")] rfl (Or.inr (by decide))
  simpa using h

/-- C1: the mapping returned by getclaimsbyids is the zip of the original id
list against the filtered list of surviving records: when no claim is dropped
each id is paired positionally with the normalization of its own record, and
when some claim is dropped the record stream is the one with the dropped
claim erased, so later ids pair with records of other ids, the key list is a
proper prefix of the id list, and trailing ids are absent from the mapping. -/
theorem claim_C1_getclaimsbyids_zip_alignment
    (db_height : Int) (gc : JVal → Option AddrInfo)
    (daemon : List String → List Dict) (claim_ids : List String) (claims : List Dict)
    (hdaemon : daemon claim_ids = claims)
    (hlen : claims.length = claim_ids.length) :
    (∀ fs, batched_formatted_claims_from_daemon db_height gc claims = .ok fs →
      claimtrie_getclaimsbyids db_height gc daemon claim_ids = .ok (claim_ids.zip fs)
      ∧ ((∀ c ∈ claims, survives c = true) →
          fs.length = claim_ids.length
          ∧ ∀ (i : Nat) (hc : i < claims.length) (hf : i < fs.length),
              format_claim_from_daemon db_height gc (claims.get ⟨i, hc⟩) none
                = .ok (fs.get ⟨i, hf⟩))
      ∧ (∀ (pre post : List Dict) (d : Dict),
          claims = pre ++ d :: post → survives d = false →
          fs.length < claim_ids.length
          ∧ (claim_ids.zip fs).map Prod.fst = claim_ids.take fs.length
          ∧ (claim_ids.Nodup → ∀ (j : Nat) (hj : j < claim_ids.length), fs.length ≤ j →
              claim_ids.get ⟨j, hj⟩ ∉ (claim_ids.zip fs).map Prod.fst)))
    ∧ (∀ (pre post : List Dict) (d : Dict),
        claims = pre ++ d :: post → survives d = false →
        batched_formatted_claims_from_daemon db_height gc claims
          = batched_formatted_claims_from_daemon db_height gc (pre ++ post)) := by
  constructor
  · intro fs hbatched
    refine ⟨?_, ?_, ?_⟩
    · unfold claimtrie_getclaimsbyids
      rw [hdaemon, hbatched]
    · intro hall
      obtain ⟨h1, h2⟩ := batched_all_ok db_height gc claims fs hall hbatched
      exact ⟨by rw [h1, hlen], h2⟩
    · intro pre post d hsplit hdrop
      have hshort : fs.length < claim_ids.length := by
        have heq2 := batched_drop db_height gc d hdrop pre post
        rw [hsplit] at hbatched
        rw [heq2] at hbatched
        have hle := batched_ok_length_le db_height gc (pre ++ post) fs hbatched
        rw [hsplit] at hlen
        simp at hle
        simp at hlen
        omega
      have hkeys : (claim_ids.zip fs).map Prod.fst = claim_ids.take fs.length := by
        rw [zip_eq_zip_take claim_ids fs]
        apply List.map_fst_zip
        simp
      refine ⟨hshort, hkeys, ?_⟩
      intro hnd j hj hfj
      rw [hkeys]
      exact nodup_get_not_mem_take claim_ids hnd fs.length j hj hfj
  · intro pre post d hsplit hdrop
    rw [hsplit]
    exact batched_drop db_height gc d hdrop pre post

theorem claim_C1_getclaimsbyids_zip_alignment_witness :
    claimtrie_getclaimsbyids 10 (fun _ => some ⟨[97]⟩)
      (fun _ => [[("claimId", JVal.s "aa"), ("txid", JVal.s "t1"), ("n", JVal.i 0),
                  ("height", JVal.i 5), ("value", JVal.s "v")],
                 [("claimId", JVal.s "bb")]]) ["aa", "bb"]
      = .ok [("aa", FormatResult.record ⟨none, JVal.s "aa", JVal.s "t1", JVal.i 0, none,
          6, 5, "76", "a", [], none, none, JVal.i (-1), none⟩)]
    ∧ "bb" ∉ ((["aa", "bb"].zip
        [FormatResult.record ⟨none, JVal.s "aa", JVal.s "t1", JVal.i 0, none,
          6, 5, "76", "a", [], none, none, JVal.i (-1), none⟩]).map Prod.fst) := by
  have hbatched : batched_formatted_claims_from_daemon 10 (fun _ => some ⟨[97]⟩)
      [[("claimId", JVal.s "aa"), ("txid", JVal.s "t1"), ("n", JVal.i 0),
        ("height", JVal.i 5), ("value", JVal.s "v")],
       [("claimId", JVal.s "bb")]]
      = .ok [FormatResult.record ⟨none, JVal.s "aa", JVal.s "t1", JVal.i 0, none,
          6, 5, "76", "a", [], none, none, JVal.i (-1), none⟩] := by decide
  have h := claim_C1_getclaimsbyids_zip_alignment 10 (fun _ => some ⟨[97]⟩)
    (fun _ => [[("claimId", JVal.s "aa"), ("txid", JVal.s "t1"), ("n", JVal.i 0),
                ("height", JVal.i 5), ("value", JVal.s "v")],
               [("claimId", JVal.s "bb")]]) ["aa", "bb"]
    [[("claimId", JVal.s "aa"), ("txid", JVal.s "t1"), ("n", JVal.i 0),
      ("height", JVal.i 5), ("value", JVal.s "v")],
     [("claimId", JVal.s "bb")]] rfl (by decide)
  obtain ⟨hmain, -⟩ := h
  have h1 := hmain _ hbatched
  refine ⟨by simpa using h1.1, ?_⟩
  have h3 := h1.2.2
    [[("claimId", JVal.s "aa"), ("txid", JVal.s "t1"), ("n", JVal.i 0),
      ("height", JVal.i 5), ("value", JVal.s "v")]] []
    [("claimId", JVal.s "bb")] rfl (by decide)
  have habs := h3.2.2 (by decide) 1 (by decide) (by decide)
  exact habs
